import Mathlib

/-!
Verification of the cytokit distributed tile-processing orchestrator
(`src/python/pipeline/codex/exec/pipeline.py`) and the CLI index-argument
resolver (`src/python/pipeline/codex/cli/processor.py`).

Every definition below is a shallow embedding of the corresponding Python
function; line references point to the sources listed above.  External
collaborators (the dask backend, tile I/O, the operator implementations)
appear as explicit parameters, matching the spec's "opaque operator" view.
-/

set_option autoImplicit false

namespace Cytokit

/-! ## Monitor-data dictionaries (`pipeline.py`, `concat`, lines 222-228)

A Python dict mapping string keys to lists of values is embedded as an
insertion-ordered association list with unique keys.  Monitor values are
abstracted as integers. -/

abbrev Dict := List (String × List Int)

/-- One Python dict assignment `res[k] = res.get(k, []) + v`: update the
existing entry in place (dicts preserve insertion position on reassignment),
or append a fresh entry at the end. -/
def dictUpd : Dict → String → List Int → Dict
  | [], k, v => [(k, v)]
  | (k1, v1) :: rest, k, v =>
    if k1 = k then (k1, v1 ++ v) :: rest else (k1, v1) :: dictUpd rest k v

/-- The inner loop of `concat`: fold one dataset's entries into `res`
(`for k, v in dataset.items(): res[k] = res.get(k, []) + v`). -/
def concatOne (res : Dict) (dataset : Dict) : Dict :=
  dataset.foldl (fun r kv => dictUpd r kv.1 kv.2) res

/-- `concat(datasets)` from `pipeline.py` lines 222-228: merge dictionaries
containing lists for each key, starting from the empty dict. -/
def concat (datasets : List Dict) : Dict :=
  datasets.foldl concatOne []

/-- First-match key lookup (sound because all dicts built here keep keys
unique, as Python dicts do). -/
def dictGet : Dict → String → Option (List Int)
  | [], _ => none
  | (k1, v1) :: rest, k => if k1 = k then some v1 else dictGet rest k

/-- `res.get(k, [])`: the list stored at `k`, or `[]` when absent. -/
def getL (d : Dict) (k : String) : List Int :=
  (dictGet d k).getD []

/-- All values contributed for key `k` by the raw entry sequence `d`,
in order. -/
def vals (d : Dict) (k : String) : List Int :=
  ((d.filter (fun kv => kv.1 == k)).map Prod.snd).flatten

/-- The key sequence of a dict. -/
def dkeys (d : Dict) : List String :=
  d.map Prod.fst

/-- The binary merge `concat [a, b]` induced by `concat`. -/
def merge2 (a b : Dict) : Dict :=
  concat [a, b]

/-- The per-tile accumulation loop of `run_pipeline_task` (line 266):
`monitor_data = concat([monitor_data, monitor.data])`, once per tile,
starting from the empty dict. -/
def taskAccum (ms : List Dict) : Dict :=
  ms.foldl (fun acc m => concat [acc, m]) []

/-! ## CLI index-argument resolution
(`cli/processor.py`, `resolve_int_list_arg`, lines 153-164)

The heterogeneous Python argument is embedded as a closed tagged variant:
`none`, a bare integer, a numeric string (represented by its parsed integer
value), a tuple with at least two items (`arg[0]`, `arg[1]`, and any ignored
remainder), an explicit list, and a fallback `other` standing for any
unhandled shape, which the Python code returns as-is. -/

inductive CliArg where
  | none : CliArg
  | int (n : Int) : CliArg
  | str (n : Int) : CliArg
  | tuple (a b : Int) (rest : List Int) : CliArg
  | list (xs : List Int) : CliArg
  | other : CliArg
  deriving Repr, DecidableEq

/-- Python `list(range(a, b))`: the right-open integer range `[a, b)`. -/
def intRange (a b : Int) : List Int :=
  (List.range (b - a).toNat).map (fun k : Nat => a + (k : Int))

/-- `resolve_int_list_arg` from `cli/processor.py` lines 153-164. -/
def resolve_int_list_arg : CliArg → CliArg
  | CliArg.none => CliArg.none
  | CliArg.int n => CliArg.list [n]
  | CliArg.str n => CliArg.list [n]
  | CliArg.tuple a b _ => CliArg.list (intRange a b)
  | CliArg.list xs => CliArg.list xs
  | CliArg.other => CliArg.other

/-! ## Configuration (`pipeline.py`, `TaskConfig` lines 27-62 and
`PipelineConfig` lines 65-126)

Only the fields the orchestration logic reads are retained; directory paths
and operator parameters are irrelevant to the claims and omitted.  The
experiment configuration collaborator supplies the defaults used when index
arguments are absent. -/

structure ExpConfig where
  region_indexes : List Int
  n_tiles_per_region : Nat
  deriving Repr, DecidableEq

structure PipelineConfig where
  region_idx : List Int
  tile_idx : List Int
  n_workers : Nat
  gpus : Option (List Int)
  deriving Repr, DecidableEq

/-- 0-based region index array (`PipelineConfig.region_indexes`,
lines 112-115). -/
def PipelineConfig.region_indexes (c : PipelineConfig) : List Int :=
  c.region_idx.map (fun i => i - 1)

/-- 0-based tile index array (`PipelineConfig.tile_indexes`,
lines 117-120). -/
def PipelineConfig.tile_indexes (c : PipelineConfig) : List Int :=
  c.tile_idx.map (fun i => i - 1)

/-- `PipelineConfig.region_tiles` (lines 122-126): the cartesian product of
the 0-based region and tile index lists, in `itertools.product` order. -/
def PipelineConfig.region_tiles (c : PipelineConfig) : List (Int × Int) :=
  c.region_indexes.product c.tile_indexes

/-- One worker's slice (`TaskConfig`): the pairwise-associated region/tile
index lists and the assigned GPU. -/
structure TaskCfg where
  region_indexes : List Int
  tile_indexes : List Int
  gpu : Option Int
  deriving Repr, DecidableEq

def dfltTask : TaskCfg := ⟨[], [], none⟩

/-- Validation message of `PipelineConfig.__init__` line 91. -/
def regionIdxErrorMsg (l : List Int) : String :=
  "Region indexes must be specified as 1-based index (indexes given = "
    ++ toString l ++ ")"

/-- Validation message of `PipelineConfig.__init__` line 93. -/
def tileIdxErrorMsg (l : List Int) : String :=
  "Tile indexes must be specified as 1-based index (indexes given = "
    ++ toString l ++ ")"

/-- Validation message of `TaskConfig.__init__` lines 45-49. -/
def taskLenErrorMsg (r t : List Int) : String :=
  "Region and tile index lists must have same length (region indexes = "
    ++ toString r ++ ", tile indexes = " ++ toString t ++ ")"

/-- Defaulting of the region index list (`PipelineConfig.__init__`
lines 83-85): absent means the experiment's 0-based region indexes shifted
back to the 1-based convention. -/
def resolveRegionIdx (arg : Option (List Int)) (exp : ExpConfig) : List Int :=
  match arg with
  | Option.none => exp.region_indexes.map (fun i => i + 1)
  | Option.some l => l

/-- Defaulting of the tile index list (`PipelineConfig.__init__`
lines 86-87): absent means `range(1, n_tiles_per_region + 1)`. -/
def resolveTileIdx (arg : Option (List Int)) (exp : ExpConfig) : List Int :=
  match arg with
  | Option.none =>
    (List.range exp.n_tiles_per_region).map (fun i : Nat => (i : Int) + 1)
  | Option.some l => l

/-- `PipelineConfig.__init__` (lines 67-93): default absent index lists from
the experiment configuration, then fail unless every resolved index is
strictly positive, checking regions before tiles. -/
def mkPipelineConfig (regionArg tileArg : Option (List Int)) (exp : ExpConfig)
    (n_workers : Nat) (gpus : Option (List Int)) : Except String PipelineConfig :=
  let region_idx := resolveRegionIdx regionArg exp
  let tile_idx := resolveTileIdx tileArg exp
  if region_idx.any (fun i => decide (i ≤ 0)) then
    Except.error (regionIdxErrorMsg region_idx)
  else if tile_idx.any (fun i => decide (i ≤ 0)) then
    Except.error (tileIdxErrorMsg tile_idx)
  else
    Except.ok ⟨region_idx, tile_idx, n_workers, gpus⟩

/-- `TaskConfig.__init__` (lines 29-49): fail unless the region and tile
index lists have equal length. -/
def mkTaskConfig (region_indexes tile_indexes : List Int) (gpu : Option Int) :
    Except String TaskCfg :=
  if region_indexes.length ≠ tile_indexes.length then
    Except.error (taskLenErrorMsg region_indexes tile_indexes)
  else
    Except.ok ⟨region_indexes, tile_indexes, gpu⟩

/-! ## Batch splitting and task construction (`run`, lines 285-318)

`np.array_split(np.arange(M), n)` is embedded recursively: the first chunk
takes `ceil(M / n)` elements and the remainder is split into `n - 1` chunks.
`array_split_sizes` below proves this reproduces numpy's documented sizes:
the first `M mod n` chunks have length `M / n + 1` and the rest `M / n`. -/

def array_split {α : Type} (xs : List α) : Nat → List (List α)
  | 0 => []
  | Nat.succ n =>
    xs.take ((xs.length + n) / (n + 1))
      :: array_split (xs.drop ((xs.length + n) / (n + 1))) n

/-- Round-robin GPU assignment (`run`, lines 291-294):
`gpus[i % len(gpus)]` when a GPU list was supplied, else absent. -/
def get_gpu (c : PipelineConfig) (i : Nat) : Option Int :=
  match c.gpus with
  | Option.none => Option.none
  | Option.some g => Option.some (g.getD (i % g.length) 0)

/-- Task construction in `run` (lines 285-300): split the positions of the
pair list into `n_workers` batches with `array_split`, then build one
`TaskCfg` per batch from the pair components at those positions, with
round-robin GPU assignment over the batch number. -/
def runTasks (c : PipelineConfig) : List TaskCfg :=
  let tiles := c.region_tiles
  let idx_batches := array_split (List.range tiles.length) c.n_workers
  idx_batches.enum.map (fun ib =>
    { region_indexes := ib.2.map (fun j => (tiles.getD j (0, 0)).1)
      tile_indexes := ib.2.map (fun j => (tiles.getD j (0, 0)).2)
      gpu := get_gpu c ib.1 })

/-- The per-task batch sizes, read off the constructed tasks. -/
def taskSizes (c : PipelineConfig) : List Nat :=
  (runTasks c).map (fun t => t.region_indexes.length)

/-- The dispatch/aggregation tail of `run` (lines 314-326), with the
distributed backend abstracted as a function from the task list to the
per-task results it returned: fail when the result count differs from the
task count, otherwise merge the task results with `concat`. -/
def runModel (c : PipelineConfig) (backend : List TaskCfg → List Dict) :
    Except String Dict :=
  let tasks := runTasks c
  let res := backend tasks
  if res.length ≠ tasks.length then
    Except.error ("Parallel execution returned " ++ toString res.length
      ++ " results but " ++ toString tasks.length ++ " were expected")
  else
    Except.ok (concat res)

/-- A whole run: configuration construction (which validates) followed by
task dispatch; configuration errors surface before any task output is
consulted. -/
def runTop (regionArg tileArg : Option (List Int)) (exp : ExpConfig)
    (n_workers : Nat) (gpus : Option (List Int))
    (backend : List TaskCfg → List Dict) : Except String Dict :=
  match mkPipelineConfig regionArg tileArg exp n_workers gpus with
  | Except.error e => Except.error e
  | Except.ok c => runModel c backend

/-! ## Per-tile operator pipeline (`process_tile`, lines 156-194)

A tile is a 5-D array `(cycles, z, channels, y, x)`; only the first two axes
matter to the claims, so it is embedded as a list of cycles, each a list of
z-planes with abstract plane content `α`.  Each operator collaborator is an
opaque function, present or absent exactly as in `CodexOpSet`. -/

def Tile (α : Type) : Type := List (List α)

/-- The fancy-indexing `decon_tile[:, [focus_z_plane], :, :, :]` of line 182:
keep, in every cycle, the one-element z-slice at index `k`. -/
def sliceZ {α : Type} (t : Tile α) (k : Nat) : Tile α :=
  t.map (fun cyc => (cyc.drop k).take 1)

structure OpSet (α β γ σ : Type) where
  align_op : Option (Tile α → Tile α)
  crop_op : Tile α → Tile α
  decon_op : Option (Tile α → Tile α)
  focus_op : Option (Tile α → Nat × β × γ)
  summary_op : Option (Tile α → σ)

/-- Lines 158-164: drift compensation when enabled, else the tile passes
through unchanged. -/
def align_stage {α β γ σ : Type} (ops : OpSet α β γ σ) (t : Tile α) : Tile α :=
  match ops.align_op with
  | Option.some f => f t
  | Option.none => t

/-- Line 167: the mandatory overlap crop. -/
def crop_stage {α β γ σ : Type} (ops : OpSet α β γ σ) (t : Tile α) : Tile α :=
  ops.crop_op t

/-- Lines 170-176: deconvolution when enabled, else the cropped tile passes
through unchanged. -/
def decon_stage {α β γ σ : Type} (ops : OpSet α β γ σ) (t : Tile α) : Tile α :=
  match ops.decon_op with
  | Option.some f => f t
  | Option.none => t

/-- Lines 178-185: when enabled, run the focus operator on `tile` (the
original pipeline input) to get `(focus_z_plane, classifications,
probabilities)`, and slice the deconvolved volume at that z-plane; when
disabled both results stay `None`. -/
def focus_stage {α β γ σ : Type} (ops : OpSet α β γ σ) (tile : Tile α)
    (decon_tile : Tile α) : Option (Tile α) × Option Nat :=
  match ops.focus_op with
  | Option.some f =>
    (Option.some (sliceZ decon_tile (f tile).1), Option.some (f tile).1)
  | Option.none => (Option.none, Option.none)

/-- Lines 187-192: the summary operator runs on the deconvolved tile for its
side effect only; the reified result records what it was applied to. -/
def summary_stage {α β γ σ : Type} (ops : OpSet α β γ σ) (decon_tile : Tile α) :
    Option σ :=
  match ops.summary_op with
  | Option.some f => Option.some (f decon_tile)
  | Option.none => Option.none

/-- `process_tile` (lines 156-194).  The Python function returns
`decon_tile, (focus_tile, focus_z_plane)`; the summary side effect is
reified as a second component so the value it consumed is observable. -/
def process_tile {α β γ σ : Type} (t : Tile α) (ops : OpSet α β γ σ) :
    (Tile α × (Option (Tile α) × Option Nat)) × Option σ :=
  let align_tile := align_stage ops t
  let crop_tile := crop_stage ops align_tile
  let decon_tile := decon_stage ops crop_tile
  ((decon_tile, focus_stage ops t decon_tile), summary_stage ops decon_tile)

/-! ## Task driver loop (`run_pipeline_task`, lines 231-270)

Tile loading, coordinate lookup and `process_tile` itself are abstracted
into an environment: what the loop body observes per `(region, tile)` pair
is the monitor data collected for that tile and the outcomes of the two
fallible save operations.  The loop iterates the task's pair list in order
(the single-producer FIFO queue preserves assignment order), and each
iteration runs, in program order: the optional best-focus save (line 257),
the result save (line 263), and only then the monitor-data merge
(line 266).  Any raise aborts the task. -/

structure TaskEnv where
  monitorOf : Int × Int → Dict
  saveFocusTile : Int × Int → Except String Unit
  saveResultTile : Int × Int → Except String Unit
  focusEnabled : Bool

/-- One iteration of the tile loop (lines 244-268): a raised exception in
either save propagates and skips everything after it, in particular the
monitor-data merge of line 266. -/
def tileStep (env : TaskEnv) (monitor_data : Dict) (rt : Int × Int) :
    Except String Dict :=
  match (if env.focusEnabled then env.saveFocusTile rt else Except.ok ()) with
  | Except.error e => Except.error e
  | Except.ok _ =>
    match env.saveResultTile rt with
    | Except.error e => Except.error e
    | Except.ok _ => Except.ok (concat [monitor_data, env.monitorOf rt])

/-- The tile loop of `run_pipeline_task`: `n_tiles` iterations over the
task's pairs, accumulating monitor data from the empty dict. -/
def run_task_loop (env : TaskEnv) (region_indexes tile_indexes : List Int) :
    Except String Dict :=
  (region_indexes.zip tile_indexes).foldlM (tileStep env) []

/-! ## Concrete instances used as witnesses and counterexamples -/

/-- A task environment whose result save always raises. -/
def cexSaveFail : TaskEnv where
  monitorOf := fun _ => [("metric", [1])]
  saveFocusTile := fun _ => Except.ok ()
  saveResultTile := fun _ => Except.error "save failed"
  focusEnabled := false

/-- A task environment whose saves all succeed. -/
def envOkSave : TaskEnv where
  monitorOf := fun _ => [("metric", [2])]
  saveFocusTile := fun _ => Except.ok ()
  saveResultTile := fun _ => Except.ok ()
  focusEnabled := true

/-- A task environment with no monitor data and successful saves. -/
def envEmpty : TaskEnv where
  monitorOf := fun _ => []
  saveFocusTile := fun _ => Except.ok ()
  saveResultTile := fun _ => Except.ok ()
  focusEnabled := false

/-- `worker_count = 5`, `gpu_ids = [0, 1]`: the spec's round-robin example. -/
def gpuExampleConfig : PipelineConfig := ⟨[1], [1, 2, 3, 4, 5], 5, some [0, 1]⟩

/-- Five tasks, used with a backend that loses one result. -/
def mismatchConfig : PipelineConfig := ⟨[1], [1, 2, 3, 4, 5], 5, none⟩

/-- A backend returning 4 results regardless of how many tasks it got. -/
def lossyBackend : List TaskCfg → List Dict := fun _ => [[], [], [], []]

/-- One (region, tile) pair split across three workers. -/
def surplusConfig : PipelineConfig := ⟨[1], [1], 3, none⟩

/-- Two regions and three tiles split across two workers. -/
def partitionConfig : PipelineConfig := ⟨[1, 2], [1, 2, 3], 2, some [0, 1]⟩

def expExample : ExpConfig := ⟨[0, 1], 3⟩

/-- An operator set with only focus selection enabled; the focus operator
always selects z-plane 1. -/
def opsFocusExample : OpSet Nat Nat Nat Nat :=
  ⟨none, id, none, some (fun _ => (1, 5, 7)), none⟩

/-- One cycle of three z-planes. -/
def tileExample : Tile Nat := [[10, 20, 30]]

/-- Alignment and deconvolution disabled; crop drops the first z-plane. -/
def opsSkipExample : OpSet Nat Nat Nat Nat where
  align_op := none
  crop_op := fun t => t.map (fun cyc => cyc.drop 1)
  decon_op := none
  focus_op := some (fun _ => (0, 5, 7))
  summary_op := some (fun t => t.length)

/-! ## Lemmas about the dictionary merge -/

theorem concatOne_nil (r : Dict) : concatOne r [] = r := rfl

theorem concatOne_cons (r : Dict) (k : String) (v : List Int) (d : Dict) :
    concatOne r ((k, v) :: d) = concatOne (dictUpd r k v) d := rfl

theorem concat_pair (a b : Dict) : concat [a, b] = concatOne (concatOne [] a) b := rfl

theorem getL_nil (k : String) : getL [] k = [] := rfl

theorem vals_nil (k : String) : vals [] k = [] := rfl

theorem vals_cons (k1 : String) (v1 : List Int) (d : Dict) (k : String) :
    vals ((k1, v1) :: d) k = if k1 = k then v1 ++ vals d k else vals d k := by
  by_cases h : k1 = k <;> simp [vals, List.filter_cons, h]

theorem getL_cons (a : String) (b : List Int) (t : Dict) (k2 : String) :
    getL ((a, b) :: t) k2 = if a = k2 then b else getL t k2 := by
  by_cases h : a = k2 <;> simp [getL, dictGet, h]

theorem dkeys_cons (k1 : String) (v1 : List Int) (d : Dict) :
    dkeys ((k1, v1) :: d) = k1 :: dkeys d := rfl

/-- Effect of one dict assignment on lookups. -/
theorem getL_dictUpd (r : Dict) (k : String) (v : List Int) (k2 : String) :
    getL (dictUpd r k v) k2 = if k2 = k then getL r k2 ++ v else getL r k2 := by
  induction r with
  | nil =>
    by_cases h : k2 = k
    · subst h; simp [dictUpd, getL, dictGet]
    · have h2 : ¬(k = k2) := fun hh => h hh.symm
      simp [dictUpd, getL, dictGet, h, h2]
  | cons hd rest ih =>
    obtain ⟨k1, v1⟩ := hd
    simp only [dictUpd]
    by_cases h1 : k1 = k
    · rw [if_pos h1, getL_cons, getL_cons]
      by_cases h2 : k1 = k2
      · rw [if_pos h2, if_pos h2, if_pos (h2.symm.trans h1)]
      · have hk2 : ¬(k2 = k) := fun hh => h2 (h1.trans hh.symm)
        rw [if_neg h2, if_neg h2, if_neg hk2]
    · rw [if_neg h1, getL_cons, getL_cons, ih]
      by_cases h2 : k1 = k2
      · have hk2 : ¬(k2 = k) := fun hh => h1 (h2.trans hh)
        rw [if_pos h2, if_pos h2, if_neg hk2]
      · rw [if_neg h2, if_neg h2]

/-- Folding a dataset into `res` appends, key by key, all values that
dataset contributes. -/
theorem getL_concatOne (d : Dict) : ∀ (r : Dict) (k : String),
    getL (concatOne r d) k = getL r k ++ vals d k := by
  induction d with
  | nil => intro r k; simp [concatOne_nil, vals_nil]
  | cons hd rest ih =>
    intro r k
    obtain ⟨k1, v1⟩ := hd
    rw [concatOne_cons, ih, getL_dictUpd, vals_cons]
    by_cases h : k1 = k
    · rw [if_pos h, if_pos h.symm, List.append_assoc]
    · have h2 : ¬(k = k1) := fun hh => h hh.symm
      rw [if_neg h2, if_neg h]

theorem vals_of_not_mem_dkeys {d : Dict} {k : String} (h : k ∉ dkeys d) :
    vals d k = [] := by
  induction d with
  | nil => rfl
  | cons hd rest ih =>
    obtain ⟨k1, v1⟩ := hd
    rw [dkeys_cons, List.mem_cons, not_or] at h
    rw [vals_cons, if_neg (fun hh => h.1 hh.symm)]
    exact ih h.2

/-- On a dict with unique keys, the lookup agrees with the contributed
value sequence. -/
theorem getL_eq_vals {d : Dict} (hd : (dkeys d).Nodup) (k : String) :
    getL d k = vals d k := by
  induction d with
  | nil => rfl
  | cons hd0 rest ih =>
    obtain ⟨k1, v1⟩ := hd0
    rw [dkeys_cons, List.nodup_cons] at hd
    rw [getL_cons, vals_cons]
    by_cases h : k1 = k
    · rw [if_pos h, if_pos h, vals_of_not_mem_dkeys (h ▸ hd.1), List.append_nil]
    · rw [if_neg h, if_neg h, ih hd.2]

theorem dkeys_dictUpd (r : Dict) (k : String) (v : List Int) :
    dkeys (dictUpd r k v) = if k ∈ dkeys r then dkeys r else dkeys r ++ [k] := by
  induction r with
  | nil => simp [dictUpd, dkeys]
  | cons hd rest ih =>
    obtain ⟨k1, v1⟩ := hd
    simp only [dictUpd]
    by_cases h : k1 = k
    · rw [if_pos h, dkeys_cons, dkeys_cons]
      rw [if_pos (show k ∈ k1 :: dkeys rest from List.mem_cons.mpr (Or.inl h.symm))]
    · have hne : ¬(k = k1) := fun hh => h hh.symm
      rw [if_neg h, dkeys_cons, dkeys_cons, ih]
      by_cases hm : k ∈ dkeys rest
      · rw [if_pos hm,
          if_pos (show k ∈ k1 :: dkeys rest from List.mem_cons.mpr (Or.inr hm))]
      · rw [if_neg hm,
          if_neg (show ¬ k ∈ k1 :: dkeys rest from
            fun hh => (List.mem_cons.mp hh).elim hne hm),
          List.cons_append]

theorem nodup_dkeys_dictUpd {r : Dict} (hr : (dkeys r).Nodup)
    (k : String) (v : List Int) : (dkeys (dictUpd r k v)).Nodup := by
  rw [dkeys_dictUpd]
  by_cases h : k ∈ dkeys r
  · simpa [h] using hr
  · simp [h, List.nodup_append, hr]

theorem nodup_dkeys_concatOne (d : Dict) : ∀ {r : Dict}, (dkeys r).Nodup →
    (dkeys (concatOne r d)).Nodup := by
  induction d with
  | nil => intro r hr; exact hr
  | cons hd rest ih =>
    intro r hr
    obtain ⟨k1, v1⟩ := hd
    rw [concatOne_cons]
    exact ih (nodup_dkeys_dictUpd hr k1 v1)

/-- Folding a dataset that never mentions key `k` past a leading `(k, v)`
entry leaves that entry in place. -/
theorem concatOne_cons_left (d : Dict) : ∀ (r : Dict) (k : String) (v : List Int),
    k ∉ dkeys d → concatOne ((k, v) :: r) d = (k, v) :: concatOne r d := by
  induction d with
  | nil => intro r k v _; rfl
  | cons hd rest ih =>
    intro r k v hk
    obtain ⟨k1, v1⟩ := hd
    rw [dkeys_cons, List.mem_cons, not_or] at hk
    rw [concatOne_cons, concatOne_cons, dictUpd, if_neg hk.1]
    exact ih _ k v hk.2

/-- Folding a unique-keyed dict into the empty dict reproduces it. -/
theorem concatOne_nil_left {d : Dict} (hd : (dkeys d).Nodup) :
    concatOne [] d = d := by
  induction d with
  | nil => rfl
  | cons hd0 rest ih =>
    obtain ⟨k1, v1⟩ := hd0
    rw [dkeys_cons, List.nodup_cons] at hd
    rw [concatOne_cons, dictUpd, concatOne_cons_left rest [] k1 v1 hd.1]
    exact congrArg _ (ih hd.2)

theorem getL_merge2 (a b : Dict) (k : String) :
    getL (merge2 a b) k = vals a k ++ vals b k := by
  rw [merge2, concat_pair, getL_concatOne, getL_concatOne, getL_nil,
    List.nil_append]

theorem nodup_dkeys_merge2 (a b : Dict) : (dkeys (merge2 a b)).Nodup := by
  rw [merge2, concat_pair]
  exact nodup_dkeys_concatOne b (nodup_dkeys_concatOne a List.nodup_nil)

theorem vals_merge2 (a b : Dict) (k : String) :
    vals (merge2 a b) k = vals a k ++ vals b k := by
  rw [← getL_eq_vals (nodup_dkeys_merge2 a b), getL_merge2]

/-- The per-tile accumulation `monitor_data = concat([monitor_data, m])`
folded over a list of monitor results equals one `concat` of them all. -/
theorem foldl_merge2_eq_foldl_concatOne (ms : List Dict) : ∀ (acc : Dict),
    (dkeys acc).Nodup →
    ms.foldl (fun a m => concat [a, m]) acc = ms.foldl concatOne acc := by
  induction ms with
  | nil => intro acc _; rfl
  | cons m rest ih =>
    intro acc hacc
    have h1 : concat [acc, m] = concatOne acc m := by
      rw [concat_pair, concatOne_nil_left hacc]
    simp only [List.foldl_cons, h1]
    exact ih _ (nodup_dkeys_concatOne m hacc)

theorem taskAccum_eq_concat (ms : List Dict) : taskAccum ms = concat ms :=
  foldl_merge2_eq_foldl_concatOne ms [] List.nodup_nil

/-! ## Lemmas about `array_split` -/

/-- `(M + n) / (n + 1)` is the ceiling of `M / (n + 1)`. -/
theorem add_div_succ (M n : Nat) :
    (M + n) / (n + 1) = if M % (n + 1) = 0 then M / (n + 1) else M / (n + 1) + 1 := by
  have hpos : 0 < n + 1 := Nat.succ_pos n
  have hdm := Nat.div_add_mod M (n + 1)
  have hrlt : M % (n + 1) < n + 1 := Nat.mod_lt _ hpos
  by_cases h : M % (n + 1) = 0
  · rw [if_pos h]
    have hM : M + n = (n + 1) * (M / (n + 1)) + n := by omega
    rw [hM, Nat.mul_add_div hpos,
      Nat.div_eq_of_lt (show n < n + 1 by omega)]
    omega
  · rw [if_neg h]
    have hM : M + n = (n + 1) * (M / (n + 1)) + ((M % (n + 1) - 1) + (n + 1)) := by
      omega
    rw [hM, Nat.mul_add_div hpos, Nat.add_div_right _ hpos,
      Nat.div_eq_of_lt (show M % (n + 1) - 1 < n + 1 by omega)]

theorem array_split_length {α : Type} : ∀ (n : Nat) (xs : List α),
    (array_split xs n).length = n := by
  intro n
  induction n with
  | zero => intro xs; rfl
  | succ n ih => intro xs; simp [array_split, ih]

theorem array_split_flatten {α : Type} : ∀ (n : Nat) (xs : List α),
    (array_split xs (n + 1)).flatten = xs := by
  intro n
  induction n with
  | zero =>
    intro xs
    simp [array_split, Nat.div_one]
  | succ n ih =>
    intro xs
    rw [array_split, List.flatten_cons, ih, List.take_append_drop]

/-- The chunk sizes produced by `array_split` are exactly numpy's documented
`array_split` sizes: the first `M mod n` chunks have `M / n + 1` elements and
the remaining chunks `M / n`. -/
theorem array_split_sizes {α : Type} : ∀ (n : Nat) (xs : List α),
    (array_split xs (n + 1)).map List.length =
      (List.range (n + 1)).map (fun i =>
        if i < xs.length % (n + 1) then xs.length / (n + 1) + 1
        else xs.length / (n + 1)) := by
  intro n
  induction n with
  | zero =>
    intro xs
    simp [array_split, Nat.mod_one, Nat.div_one, List.range_succ]
  | succ n ih =>
    intro xs
    have hpos2 : 0 < n + 2 := Nat.succ_pos _
    have hdm := Nat.div_add_mod xs.length (n + 2)
    have hrlt : xs.length % (n + 2) < n + 2 := Nat.mod_lt _ hpos2
    have hmul : (n + 2) * (xs.length / (n + 2))
        = (n + 1) * (xs.length / (n + 2)) + xs.length / (n + 2) := by ring
    have hs0 : (xs.length + (n + 1)) / (n + 2)
        = if xs.length % (n + 2) = 0 then xs.length / (n + 2)
          else xs.length / (n + 2) + 1 := add_div_succ xs.length (n + 1)
    have hnorm : n + 1 + 1 = n + 2 := rfl
    rw [array_split, List.map_cons, List.range_succ_eq_map, List.map_cons,
      List.map_map]
    simp only [hnorm]
    rw [hs0]
    by_cases h : xs.length % (n + 2) = 0
    · rw [if_pos h]
      congr 1
      · rw [List.length_take,
          if_neg (show ¬ 0 < xs.length % (n + 2) by omega)]
        omega
      · rw [ih]
        have hMq : xs.length - xs.length / (n + 2)
            = (n + 1) * (xs.length / (n + 2)) := by omega
        simp only [List.length_drop, hMq, Nat.mul_mod_right,
          Nat.mul_div_cancel_left _ (Nat.succ_pos n)]
        apply List.map_congr_left
        intro i _
        simp only [Function.comp_apply]
        rw [if_neg (show ¬ i < 0 by omega), if_neg (by omega)]
    · rw [if_neg h]
      congr 1
      · rw [List.length_take,
          if_pos (show 0 < xs.length % (n + 2) by omega)]
        omega
      · rw [ih]
        have hMq : xs.length - (xs.length / (n + 2) + 1)
            = (n + 1) * (xs.length / (n + 2)) + (xs.length % (n + 2) - 1) := by
          omega
        have hmod : ((n + 1) * (xs.length / (n + 2)) + (xs.length % (n + 2) - 1))
            % (n + 1) = xs.length % (n + 2) - 1 := by
          rw [Nat.mul_add_mod]
          exact Nat.mod_eq_of_lt (by omega)
        have hdiv : ((n + 1) * (xs.length / (n + 2)) + (xs.length % (n + 2) - 1))
            / (n + 1) = xs.length / (n + 2) := by
          rw [Nat.mul_add_div (Nat.succ_pos n),
            Nat.div_eq_of_lt (show xs.length % (n + 2) - 1 < n + 1 by omega)]
          omega
        simp only [List.length_drop, hMq, hmod, hdiv]
        apply List.map_congr_left
        intro i _
        simp only [Function.comp_apply]
        by_cases hi : i < xs.length % (n + 2) - 1
        · rw [if_pos hi, if_pos (by omega)]
        · rw [if_neg hi, if_neg (by omega)]

/-! ## Lemmas about task construction -/

theorem enum_map_snd_fun {α β : Type} (l : List α) (g : α → β) :
    l.enum.map (fun p => g p.2) = l.map g := by
  have h1 : (fun p : Nat × α => g p.2) = g ∘ Prod.snd := rfl
  rw [h1, ← List.map_map, List.enum_eq_enumFrom, List.enumFrom_map_snd]

theorem getElem_enum_pair {α : Type} (l : List α) (i : Nat)
    (h : i < l.enum.length) :
    l.enum[i] = (i, l.get ⟨i, by
      simp only [List.enum_eq_enumFrom, List.enumFrom_length] at h
      exact h⟩) := by
  have h2 : i < (l.enumFrom 0).length := h
  have h3 := List.getElem_enumFrom l 0 i h2
  refine h3.trans ?_
  rw [Nat.zero_add]
  rfl

theorem map_getD_range {α : Type} (xs : List α) (d : α) :
    (List.range xs.length).map (fun i => xs.getD i d) = xs := by
  apply List.ext_getElem
  · simp
  · intro i h1 h2
    simp only [List.getElem_map, List.getElem_range]
    exact List.getD_eq_getElem xs d h2

theorem runTasks_length (c : PipelineConfig) :
    (runTasks c).length = c.n_workers := by
  simp [runTasks, array_split_length]

theorem runTasks_map_zip (c : PipelineConfig) :
    (runTasks c).map (fun t => t.region_indexes.zip t.tile_indexes)
      = (array_split (List.range c.region_tiles.length) c.n_workers).map
          (fun b => b.map (fun j => c.region_tiles.getD j (0, 0))) := by
  simp only [runTasks, List.map_map, Function.comp_def]
  rw [enum_map_snd_fun _
    (fun b : List Nat =>
      (b.map (fun j => (c.region_tiles.getD j (0, 0)).1)).zip
        (b.map (fun j => (c.region_tiles.getD j (0, 0)).2)))]
  apply List.map_congr_left
  intro b _
  rw [List.zip_map']

theorem runTasks_flatten_zip (c : PipelineConfig) (hn : 1 ≤ c.n_workers) :
    ((runTasks c).map (fun t => t.region_indexes.zip t.tile_indexes)).flatten
      = c.region_tiles := by
  rw [runTasks_map_zip, ← List.map_flatten]
  rcases Nat.exists_eq_succ_of_ne_zero (show c.n_workers ≠ 0 by omega) with ⟨m, hm⟩
  rw [hm, array_split_flatten]
  exact map_getD_range c.region_tiles (0, 0)

theorem runTasks_len_eq (c : PipelineConfig) :
    ∀ t ∈ runTasks c, t.region_indexes.length = t.tile_indexes.length := by
  intro t ht
  simp only [runTasks, List.mem_map] at ht
  obtain ⟨ib, _, rfl⟩ := ht
  simp

theorem taskSizes_eq (c : PipelineConfig) :
    taskSizes c
      = (array_split (List.range c.region_tiles.length) c.n_workers).map
          List.length := by
  simp only [taskSizes, runTasks, List.map_map, Function.comp_def,
    List.length_map]
  exact enum_map_snd_fun _ List.length

/-- The closed form of the `i`-th batch size. -/
theorem taskSizes_getD (c : PipelineConfig) (m : Nat) (hm : c.n_workers = m + 1)
    (i : Nat) (hi : i < c.n_workers) :
    (taskSizes c).getD i 0
      = if i < c.region_tiles.length % c.n_workers
        then c.region_tiles.length / c.n_workers + 1
        else c.region_tiles.length / c.n_workers := by
  rw [taskSizes_eq, hm, array_split_sizes]
  rw [hm] at hi
  rw [List.getD_eq_getElem _ _ (by simpa using hi)]
  simp

theorem runTasks_gpu (c : PipelineConfig) (i : Nat)
    (hi : i < (runTasks c).length) :
    ((runTasks c)[i]).gpu = get_gpu c i := by
  simp only [runTasks] at hi ⊢
  simp [List.getElem_map, getElem_enum_pair]

theorem runTasks_region_length (c : PipelineConfig) (i : Nat)
    (hi : i < (runTasks c).length) :
    ((runTasks c)[i]).region_indexes.length = (taskSizes c).getD i 0 := by
  rw [taskSizes, List.getD_eq_getElem _ _ (by simpa using hi)]
  simp

theorem runTasks_tile_length (c : PipelineConfig) (i : Nat)
    (hi : i < (runTasks c).length) :
    ((runTasks c)[i]).tile_indexes.length = (taskSizes c).getD i 0 := by
  have h1 := runTasks_len_eq c ((runTasks c)[i]) (List.getElem_mem hi)
  rw [← h1, runTasks_region_length c i hi]

/-! ## Claim theorems -/

/-- C1: for every valid `PipelineConfig` (at least one worker), the derived
zero-based pair list is the cartesian product of the zero-based region and
tile index lists, with length `len(region_indexes) * len(tile_indexes)`;
splitting its positions into `worker_count` contiguous batches yields one
`TaskConfig` per worker with equal-length pairwise index lists whose
concatenated pair assignments reproduce the pair list exactly (none omitted,
each position once); batch sizes are nearly equal with later batches at most
one element shorter; and when the region and tile index lists are
duplicate-free no pair is assigned twice. -/
theorem region_tiles_partition (c : PipelineConfig) (hn : 1 ≤ c.n_workers) :
    c.region_tiles.length = c.region_idx.length * c.tile_idx.length
    ∧ (runTasks c).length = c.n_workers
    ∧ ((runTasks c).map (fun t => t.region_indexes.zip t.tile_indexes)).flatten
        = c.region_tiles
    ∧ (∀ t ∈ runTasks c, t.region_indexes.length = t.tile_indexes.length)
    ∧ (∀ i j : Nat, i ≤ j → j < c.n_workers →
        (taskSizes c).getD j 0 ≤ (taskSizes c).getD i 0
        ∧ (taskSizes c).getD i 0 ≤ (taskSizes c).getD j 0 + 1)
    ∧ (c.region_idx.Nodup → c.tile_idx.Nodup →
        (((runTasks c).map
          (fun t => t.region_indexes.zip t.tile_indexes)).flatten).Nodup) := by
  obtain ⟨m, hm⟩ := Nat.exists_eq_succ_of_ne_zero (show c.n_workers ≠ 0 by omega)
  refine ⟨?_, runTasks_length c, runTasks_flatten_zip c hn, runTasks_len_eq c,
    ?_, ?_⟩
  · show (c.region_indexes ×ˢ c.tile_indexes).length
        = c.region_idx.length * c.tile_idx.length
    rw [List.length_product, PipelineConfig.region_indexes,
      PipelineConfig.tile_indexes, List.length_map, List.length_map]
  · intro i j hij hj
    rw [taskSizes_getD c m hm i (by omega), taskSizes_getD c m hm j hj]
    split_ifs <;> omega
  · intro hr ht
    rw [runTasks_flatten_zip c hn]
    have hinj : Function.Injective (fun i : Int => i - 1) := by
      intro a b hab
      have hab2 : a - 1 = b - 1 := hab
      omega
    show (c.region_indexes ×ˢ c.tile_indexes).Nodup
    exact List.Nodup.product (hr.map hinj) (ht.map hinj)

/-- C1 witness: two regions and three tiles split across two workers give
six pairs whose task assignments concatenate back to the full product. -/
theorem region_tiles_partition_witness :
    ((runTasks partitionConfig).map
        (fun t => t.region_indexes.zip t.tile_indexes)).flatten
      = [(0, 0), (0, 1), (0, 2), (1, 0), (1, 1), (1, 2)] := by
  have h := (region_tiles_partition partitionConfig (by decide)).2.2.1
  rw [h]
  decide

/-- C2 counterexample: in the tile loop, the monitor merge of line 266 runs
after the saves of lines 257/263, so with a failing result save the tile's
monitor data is never concatenated into the task-level running result and
the task aborts; the claim that the merge happens regardless of save success
is false at this input. -/
theorem monitor_lost_on_save_failure :
    cexSaveFail.monitorOf (0, 0) = [("metric", [1])]
    ∧ tileStep cexSaveFail [] (0, 0) = Except.error "save failed"
    ∧ tileStep cexSaveFail [] (0, 0)
        ≠ Except.ok (concat [[], cexSaveFail.monitorOf (0, 0)])
    ∧ run_task_loop cexSaveFail [0] [0] = Except.error "save failed" := by
  refine ⟨rfl, rfl, fun h => Except.noConfusion h, rfl⟩

/-- C2 (amended): a tile's monitor data is concatenated into the task-level
running result only after that tile's output images are successfully saved;
if the focus-tile save or the result save raises, the merge for that tile is
skipped and the tile step aborts with that error. -/
theorem monitor_merge_requires_save (env : TaskEnv) (md : Dict)
    (rt : Int × Int) :
    ((env.focusEnabled = true → env.saveFocusTile rt = Except.ok ()) →
      env.saveResultTile rt = Except.ok () →
      tileStep env md rt = Except.ok (concat [md, env.monitorOf rt]))
    ∧ (∀ e, (env.focusEnabled = true → env.saveFocusTile rt = Except.ok ()) →
        env.saveResultTile rt = Except.error e →
        tileStep env md rt = Except.error e)
    ∧ (∀ e, env.focusEnabled = true → env.saveFocusTile rt = Except.error e →
        tileStep env md rt = Except.error e) := by
  refine ⟨?_, ?_, ?_⟩
  · intro hf hr
    cases hfoc : env.focusEnabled
    · simp [tileStep, hfoc, hr]
    · simp [tileStep, hfoc, hf hfoc, hr]
  · intro e hf hr
    cases hfoc : env.focusEnabled
    · simp [tileStep, hfoc, hr]
    · simp [tileStep, hfoc, hf hfoc, hr]
  · intro e hfoc hf
    simp [tileStep, hfoc, hf]

/-- C2 witness: with both saves succeeding, the tile's monitor data is
merged into the running result. -/
theorem monitor_merge_requires_save_witness :
    tileStep envOkSave [] (0, 0) = Except.ok [("metric", [2])] := by
  have h := (monitor_merge_requires_save envOkSave [] (0, 0)).1
    (fun _ => rfl) rfl
  rw [h]
  rfl

/-- C3: when focus selection is enabled, the focal-plane index and the
classification/probability data come from running the focus operator on the
original pre-deconvolution input tile, and the returned focus tile is the
deconvolved volume sliced at that index along the z-axis; when disabled,
both focus results are absent. -/
theorem focus_selection_spec {α β γ σ : Type} (ops : OpSet α β γ σ)
    (t : Tile α) :
    (∀ f, ops.focus_op = some f →
      (process_tile t ops).1.2
        = (some (sliceZ (decon_stage ops (crop_stage ops (align_stage ops t)))
            (f t).1),
           some (f t).1))
    ∧ (ops.focus_op = none → (process_tile t ops).1.2 = (none, none)) := by
  constructor
  · intro f hf
    simp [process_tile, focus_stage, hf]
  · intro hf
    simp [process_tile, focus_stage, hf]

/-- C3 witness: a focus operator selecting z-plane 1 on a single-cycle tile
of three planes yields the one-plane slice `[[20]]`. -/
theorem focus_selection_witness :
    (process_tile tileExample opsFocusExample).1.2 = (some [[20]], some 1) := by
  have h := (focus_selection_spec opsFocusExample tileExample).1
    (fun _ => (1, 5, 7)) rfl
  rw [h]
  rfl

/-- C4: `PipelineConfig` construction fails with the error naming the
resolved region index list whenever some resolved region index is
nonpositive, and with the error naming the tile index list whenever regions
pass but some tile index is nonpositive; in both cases the whole run returns
that error without consulting any task output.  `TaskConfig` construction
fails with the analogous error whenever the index lists differ in length.
When all indexes are positive, construction succeeds. -/
theorem config_validation_spec (regionArg tileArg : Option (List Int))
    (exp : ExpConfig) (n_workers : Nat) (gpus : Option (List Int)) :
    ((∃ i ∈ resolveRegionIdx regionArg exp, i ≤ 0) →
      mkPipelineConfig regionArg tileArg exp n_workers gpus
        = Except.error (regionIdxErrorMsg (resolveRegionIdx regionArg exp))
      ∧ ∀ backend, runTop regionArg tileArg exp n_workers gpus backend
          = Except.error (regionIdxErrorMsg (resolveRegionIdx regionArg exp)))
    ∧ ((∀ i ∈ resolveRegionIdx regionArg exp, 0 < i) →
       (∃ i ∈ resolveTileIdx tileArg exp, i ≤ 0) →
      mkPipelineConfig regionArg tileArg exp n_workers gpus
        = Except.error (tileIdxErrorMsg (resolveTileIdx tileArg exp))
      ∧ ∀ backend, runTop regionArg tileArg exp n_workers gpus backend
          = Except.error (tileIdxErrorMsg (resolveTileIdx tileArg exp)))
    ∧ (∀ (r t : List Int) (g : Option Int), r.length ≠ t.length →
        mkTaskConfig r t g = Except.error (taskLenErrorMsg r t))
    ∧ ((∀ i ∈ resolveRegionIdx regionArg exp, 0 < i) →
       (∀ i ∈ resolveTileIdx tileArg exp, 0 < i) →
        mkPipelineConfig regionArg tileArg exp n_workers gpus
          = Except.ok ⟨resolveRegionIdx regionArg exp,
              resolveTileIdx tileArg exp, n_workers, gpus⟩) := by
  refine ⟨?_, ?_, ?_, ?_⟩
  · intro h
    have hval : (resolveRegionIdx regionArg exp).any
        (fun i => decide (i ≤ 0)) = true := by
      rw [List.any_eq_true]
      obtain ⟨i, hi, hle⟩ := h
      exact ⟨i, hi, by simpa using hle⟩
    refine ⟨by simp [mkPipelineConfig, hval], fun backend => ?_⟩
    simp [runTop, mkPipelineConfig, hval]
  · intro hreg h
    have hval1 : (resolveRegionIdx regionArg exp).any
        (fun i => decide (i ≤ 0)) = false := by
      rw [List.any_eq_false]
      intro i hi
      simpa using hreg i hi
    have hval2 : (resolveTileIdx tileArg exp).any
        (fun i => decide (i ≤ 0)) = true := by
      rw [List.any_eq_true]
      obtain ⟨i, hi, hle⟩ := h
      exact ⟨i, hi, by simpa using hle⟩
    refine ⟨by simp [mkPipelineConfig, hval1, hval2], fun backend => ?_⟩
    simp [runTop, mkPipelineConfig, hval1, hval2]
  · intro r t g hlen
    simp [mkTaskConfig, hlen]
  · intro hreg htile
    have hval1 : (resolveRegionIdx regionArg exp).any
        (fun i => decide (i ≤ 0)) = false := by
      rw [List.any_eq_false]
      intro i hi
      simpa using hreg i hi
    have hval2 : (resolveTileIdx tileArg exp).any
        (fun i => decide (i ≤ 0)) = false := by
      rw [List.any_eq_false]
      intro i hi
      simpa using htile i hi
    simp [mkPipelineConfig, hval1, hval2]

/-- C4 witness: `region_indexes = [0]` is rejected with the message naming
`[0]`, and a `TaskConfig` with lists of lengths 1 and 0 is rejected with the
message naming both lists. -/
theorem config_validation_witness :
    mkPipelineConfig (some [0]) (some [1]) expExample 1 none
      = Except.error (regionIdxErrorMsg [0])
    ∧ mkTaskConfig [1] [] none = Except.error (taskLenErrorMsg [1] []) := by
  refine ⟨?_, ?_⟩
  · exact ((config_validation_spec (some [0]) (some [1]) expExample 1 none).1
      ⟨0, by decide, by decide⟩).1
  · exact (config_validation_spec (some [0]) (some [1]) expExample 1 none).2.2.1
      [1] [] none (by decide)

/-- C5: the merge induced by `concat` is associative on the resulting
mappings, commutative up to the order of the per-key value lists, sends the
spec's example `[{a: [1]}, {a: [2]}]` to `{a: [1, 2]}`, and the per-tile
accumulation loop computes exactly the same operation as one cross-task
`concat`. -/
theorem concat_merge_spec :
    (∀ a b c : Dict, ∀ k : String,
      getL (merge2 (merge2 a b) c) k = getL (merge2 a (merge2 b c)) k)
    ∧ (∀ a b : Dict, ∀ k : String,
        (getL (merge2 a b) k).Perm (getL (merge2 b a) k))
    ∧ concat [[("a", [1])], [("a", [2])]] = [("a", [1, 2])]
    ∧ (∀ ms : List Dict, taskAccum ms = concat ms) := by
  refine ⟨?_, ?_, ?_, taskAccum_eq_concat⟩
  · intro a b c k
    rw [getL_merge2, getL_merge2, vals_merge2, vals_merge2, List.append_assoc]
  · intro a b k
    rw [getL_merge2, getL_merge2]
    exact List.perm_append_comm
  · decide

/-- C6: the task built from batch `i` is assigned `gpus[i mod len(gpus)]`
when a nonempty GPU list was supplied and no GPU otherwise. -/
theorem gpu_round_robin (c : PipelineConfig) (i : Nat) (hi : i < c.n_workers) :
    (c.gpus = none → ((runTasks c).getD i dfltTask).gpu = none)
    ∧ (∀ g, c.gpus = some g → g ≠ [] →
        ((runTasks c).getD i dfltTask).gpu
          = some (g.getD (i % g.length) 0)) := by
  have hlen : i < (runTasks c).length := by
    rw [runTasks_length]
    exact hi
  rw [List.getD_eq_getElem _ _ hlen, runTasks_gpu c i hlen]
  constructor
  · intro h
    simp [get_gpu, h]
  · intro g hg _
    simp [get_gpu, hg]

/-- C6 witness: `worker_count = 5`, `gpu_ids = [0, 1]` assigns
`[0, 1, 0, 1, 0]`; in particular task 4 gets GPU 0. -/
theorem gpu_round_robin_witness :
    ((runTasks gpuExampleConfig).getD 4 dfltTask).gpu = some 0
    ∧ (runTasks gpuExampleConfig).map TaskCfg.gpu
        = [some 0, some 1, some 0, some 1, some 0] := by
  constructor
  · have h := (gpu_round_robin gpuExampleConfig 4 (by decide)).2 [0, 1]
      rfl (by decide)
    rw [h]
    rfl
  · decide

/-- C7: index-argument resolution maps absent to absent, a bare integer or
numeric string to a one-element list, a tuple to the right-open range
`[a, b)` (membership characterization and the `(2, 5)` example included), an
explicit list to itself, and any other shape to itself; it is idempotent. -/
theorem resolve_arg_spec :
    resolve_int_list_arg CliArg.none = CliArg.none
    ∧ (∀ n, resolve_int_list_arg (CliArg.int n) = CliArg.list [n])
    ∧ (∀ n, resolve_int_list_arg (CliArg.str n) = CliArg.list [n])
    ∧ (∀ a b rest, resolve_int_list_arg (CliArg.tuple a b rest)
        = CliArg.list (intRange a b))
    ∧ (∀ a b x, x ∈ intRange a b ↔ a ≤ x ∧ x < b)
    ∧ intRange 2 5 = [2, 3, 4]
    ∧ (∀ xs, resolve_int_list_arg (CliArg.list xs) = CliArg.list xs)
    ∧ resolve_int_list_arg CliArg.other = CliArg.other
    ∧ (∀ x, resolve_int_list_arg (resolve_int_list_arg x)
        = resolve_int_list_arg x) := by
  refine ⟨rfl, fun n => rfl, fun n => rfl, fun a b rest => rfl, ?_,
    by decide, fun xs => rfl, rfl, ?_⟩
  · intro a b x
    simp only [intRange, List.mem_map, List.mem_range]
    constructor
    · rintro ⟨k, hk, rfl⟩
      omega
    · rintro ⟨h1, h2⟩
      exact ⟨(x - a).toNat, by omega, by omega⟩
  · intro x
    cases x <;> rfl

/-- C8: whenever the backend returns a number of results different from the
number of dispatched tasks, the run fails with the task-count-mismatch error
and returns no aggregated mapping. -/
theorem task_count_mismatch (c : PipelineConfig)
    (backend : List TaskCfg → List Dict)
    (h : (backend (runTasks c)).length ≠ (runTasks c).length) :
    runModel c backend
      = Except.error ("Parallel execution returned "
          ++ toString (backend (runTasks c)).length ++ " results but "
          ++ toString (runTasks c).length ++ " were expected")
    ∧ ∀ d, runModel c backend ≠ Except.ok d := by
  have h1 : runModel c backend
      = Except.error ("Parallel execution returned "
          ++ toString (backend (runTasks c)).length ++ " results but "
          ++ toString (runTasks c).length ++ " were expected") := by
    simp only [runModel]
    rw [if_pos h]
  refine ⟨h1, fun d hd => ?_⟩
  rw [h1] at hd
  exact Except.noConfusion hd

/-- C8 witness: 4 results for 5 dispatched tasks fail the whole run. -/
theorem task_count_mismatch_witness :
    runModel mismatchConfig lossyBackend
      = Except.error
          "Parallel execution returned 4 results but 5 were expected" := by
  have h := (task_count_mismatch mismatchConfig lossyBackend (by decide)).1
  rw [h]
  rfl

/-- C9: with alignment disabled the tile entering the crop stage is the
input tile unchanged; with deconvolution disabled the deconvolution stage is
the identity, so the cropped tile is what focus selection and the summary
consume and what the pipeline returns as its main tile. -/
theorem operator_skip_spec {α β γ σ : Type} (ops : OpSet α β γ σ)
    (t : Tile α) :
    (ops.align_op = none → align_stage ops t = t)
    ∧ (ops.decon_op = none → ∀ u : Tile α, decon_stage ops u = u)
    ∧ (process_tile t ops).1.1
        = decon_stage ops (crop_stage ops (align_stage ops t))
    ∧ (process_tile t ops).1.2
        = focus_stage ops t (decon_stage ops (crop_stage ops (align_stage ops t)))
    ∧ (process_tile t ops).2
        = summary_stage ops (decon_stage ops (crop_stage ops (align_stage ops t)))
    ∧ (ops.align_op = none → ops.decon_op = none →
        (process_tile t ops).1.1 = ops.crop_op t
        ∧ (process_tile t ops).1.2 = focus_stage ops t (ops.crop_op t)
        ∧ (process_tile t ops).2 = summary_stage ops (ops.crop_op t)) := by
  refine ⟨?_, ?_, rfl, rfl, rfl, ?_⟩
  · intro h
    simp [align_stage, h]
  · intro h u
    simp [decon_stage, h]
  · intro h1 h2
    refine ⟨?_, ?_, ?_⟩ <;>
      simp [process_tile, align_stage, crop_stage, decon_stage, h1, h2]

/-- C9 witness: with alignment and deconvolution disabled, the pipeline
returns the cropped tile and the summary consumed it. -/
theorem operator_skip_witness :
    (process_tile tileExample opsSkipExample).1.1 = [[20, 30]]
    ∧ (process_tile tileExample opsSkipExample).2 = some 1 := by
  have h := (operator_skip_spec opsSkipExample tileExample).2.2.2.2.2 rfl rfl
  refine ⟨?_, ?_⟩
  · rw [h.1]
    rfl
  · rw [h.2.2]
    rfl

/-- C10: when `worker_count` exceeds the number of pairs, every batch past
the pair count is empty; a `TaskConfig` with two empty lists is constructed
successfully; the tile loop over no pairs returns the empty monitor mapping;
and merging an empty mapping anywhere in a `concat` changes nothing. -/
theorem surplus_workers_spec (c : PipelineConfig) (hn : 1 ≤ c.n_workers)
    (hM : c.region_tiles.length < c.n_workers) :
    (∀ i, c.region_tiles.length ≤ i → i < c.n_workers →
      ((runTasks c).getD i dfltTask).region_indexes = []
      ∧ ((runTasks c).getD i dfltTask).tile_indexes = [])
    ∧ (∀ g, mkTaskConfig [] [] g = Except.ok ⟨[], [], g⟩)
    ∧ (∀ env, run_task_loop env [] [] = Except.ok [])
    ∧ (∀ (xs ys : List Dict), concat (xs ++ ([] : Dict) :: ys)
        = concat (xs ++ ys)) := by
  refine ⟨?_, fun g => rfl, fun env => rfl, ?_⟩
  · intro i h1 h2
    have hlen : i < (runTasks c).length := by
      rw [runTasks_length]
      exact h2
    obtain ⟨m, hm⟩ :=
      Nat.exists_eq_succ_of_ne_zero (show c.n_workers ≠ 0 by omega)
    have hsz := taskSizes_getD c m hm i h2
    rw [Nat.mod_eq_of_lt hM, Nat.div_eq_of_lt hM, if_neg (by omega)] at hsz
    have h3 := runTasks_region_length c i hlen
    have h4 := runTasks_tile_length c i hlen
    rw [hsz] at h3 h4
    rw [List.getD_eq_getElem _ _ hlen]
    exact ⟨List.length_eq_zero.mp h3, List.length_eq_zero.mp h4⟩
  · intro xs ys
    simp only [concat, List.foldl_append, List.foldl_cons, concatOne_nil]

/-- C10 witness: one pair split across three workers leaves tasks 1 and 2
empty, and the empty mapping is a `concat` identity. -/
theorem surplus_workers_witness :
    ((runTasks surplusConfig).getD 1 dfltTask).region_indexes = []
    ∧ ((runTasks surplusConfig).getD 2 dfltTask).tile_indexes = []
    ∧ mkTaskConfig [] [] none = Except.ok ⟨[], [], none⟩
    ∧ run_task_loop envEmpty [] [] = Except.ok []
    ∧ concat ([[("a", [1])]] ++ ([] : Dict) :: [[("a", [2])]])
        = concat [[("a", [1])], [("a", [2])]] := by
  have h := surplus_workers_spec surplusConfig (by decide) (by decide)
  exact ⟨(h.1 1 (by decide) (by decide)).1, (h.1 2 (by decide) (by decide)).2,
    h.2.1 none, h.2.2.1 envEmpty, h.2.2.2 [[("a", [1])]] [[("a", [2])]]⟩

end Cytokit
